import Mathlib

/-!
Verification of the streaming archive ingestion pipeline of the journiv
application (files `app/utils/import_export/zip_handler.py` and
`app/utils/import_export/media_handler.py`).

The Python code is shallowly embedded: paths are lists of `String`
components, file contents are lists of byte values (`Nat` below 256), the
filesystem touched by extraction is an explicit record threaded through the
extraction loop, and the external collaborators (libmagic, the `mimetypes`
table, the archive reader) are oracles passed in as values.  Python string
primitives (`str.split`, `str.strip`, slicing, `pathlib` name/stem/suffix)
are re-implemented over `List Char` with their documented semantics.
-/

set_option autoImplicit false

namespace Journiv

/-! ## Python string primitives over `List Char` -/

/-- Python `str.split(sep)` for a single-character separator: `"" ↦ [""]`,
`"a/b" ↦ ["a", "b"]`, `"/a" ↦ ["", "a"]`. -/
def splitChars (sep : Char) : List Char → List (List Char)
  | [] => [[]]
  | c :: rest =>
    let r := splitChars sep rest
    if c = sep then [] :: r
    else
      match r with
      | h :: t => (c :: h) :: t
      | [] => [[c]]

/-- Characters of a Lean string (Python `str` is modelled as its code points). -/
def strChars (s : String) : List Char := s.data

/-- Python `"/".join`-free component split of a path string. -/
def rawComps (s : String) : List String :=
  (splitChars '/' (strChars s)).map (fun l => String.mk l)

/-- Python `pre in s` restricted to a prefix test: `s.startswith(pre)`. -/
def strStarts (s pre : String) : Bool :=
  (strChars pre).isPrefixOf (strChars s)

/-- Python `s.endswith(suf)`. -/
def strEnds (s suf : String) : Bool :=
  (strChars suf).isSuffixOf (strChars s)

/-- Python `s.lower()` (simple Latin case folding, as used for `photos/`
versus `Photos/` comparisons and extension comparisons). -/
def strLower (s : String) : String :=
  String.mk ((strChars s).map Char.toLower)

/-- Containment of the two-character marker `..` in a character list,
modelling Python `".." in filename`. -/
def hasDotDot : List Char → Bool
  | '.' :: '.' :: _ => true
  | _ :: rest => hasDotDot rest
  | [] => false

/-- Python `".." in s`. -/
def strHasDotDot (s : String) : Bool := hasDotDot (strChars s)

/-- Python `'/' in s`. -/
def strHasSlash (s : String) : Bool := (strChars s).contains '/'

/-! ## Path model

An absolute path is the list of its components below the filesystem root.
`pathlib.Path.resolve()` (with no symbolic links present) normalises a
component list by dropping empty and `.` components and letting `..` pop
the previous component (at the root `..` stays at the root). -/

/-- One step of lexical resolution. -/
def resolveStep (acc : List String) (c : String) : List String :=
  if c = "" ∨ c = "." then acc
  else if c = ".." then acc.dropLast
  else acc ++ [c]

/-- Lexical `Path.resolve()` over raw components. -/
def resolveComps (comps : List String) : List String :=
  comps.foldl resolveStep []

/-- Python `(root / filename).resolve()` where `root` is an already
resolved absolute directory: an absolute `filename` replaces the root. -/
def joinResolve (root : List String) (filename : String) : List String :=
  if strStarts filename "/" then resolveComps (rawComps filename)
  else resolveComps (root ++ rawComps filename)

/-- The parsed components used by `pathlib` (`PurePosixPath(s).parts`
without the root marker): empty and `.` components are dropped, `..` is
kept. -/
def pathParts (s : String) : List String :=
  (rawComps s).filter (fun c => decide (c ≠ "") && decide (c ≠ "."))

/-! ## SHA-256 over byte lists

`hashlib.sha256` is embedded as the real SHA-256 function on byte lists;
32-bit machine words are `Nat` values reduced modulo `2 ^ 32`. -/

/-- Truncation to a 32-bit word. -/
def w32 (n : Nat) : Nat := n % 4294967296

/-- Right rotation of a 32-bit word. -/
def rotr (n x : Nat) : Nat := w32 ((x >>> n) ||| (x <<< (32 - n)))

/-- Big sigma-0 of SHA-256. -/
def bsig0 (x : Nat) : Nat := rotr 2 x ^^^ rotr 13 x ^^^ rotr 22 x

/-- Big sigma-1 of SHA-256. -/
def bsig1 (x : Nat) : Nat := rotr 6 x ^^^ rotr 11 x ^^^ rotr 25 x

/-- Small sigma-0 of SHA-256. -/
def ssig0 (x : Nat) : Nat := rotr 7 x ^^^ rotr 18 x ^^^ (x >>> 3)

/-- Small sigma-1 of SHA-256. -/
def ssig1 (x : Nat) : Nat := rotr 17 x ^^^ rotr 19 x ^^^ (x >>> 10)

/-- The 64 SHA-256 round constants of FIPS 180-4, in decimal. -/
def shaK : List Nat :=
  [1116352408, 1899447441, 3049323471, 3921009573, 961987163, 1508970993,
   2453635748, 2870763221, 3624381080, 310598401, 607225278, 1426881987,
   1925078388, 2162078206, 2614888103, 3248222580, 3835390401, 4022224774,
   264347078, 604807628, 770255983, 1249150122, 1555081692, 1996064986,
   2554220882, 2821834349, 2952996808, 3210313671, 3336571891, 3584528711,
   113926993, 338241895, 666307205, 773529912, 1294757372, 1396182291,
   1695183700, 1986661051, 2177026350, 2456956037, 2730485921, 2820302411,
   3259730800, 3345764771, 3516065817, 3600352804, 4094571909, 275423344,
   430227734, 506948616, 659060556, 883997877, 958139571, 1322822218,
   1537002063, 1747873779, 1955562222, 2024104815, 2227730452, 2361852424,
   2428436474, 2756734187, 3204031479, 3329325298]

/-- Working state of one SHA-256 compression. -/
structure Hash8 where
  a : Nat
  b : Nat
  c : Nat
  d : Nat
  e : Nat
  f : Nat
  g : Nat
  h : Nat
deriving DecidableEq

/-- The SHA-256 initial hash value of FIPS 180-4, in decimal. -/
def shaH0 : Hash8 :=
  ⟨1779033703, 3144134277, 1013904242, 2773480762,
   1359893119, 2600822924, 528734635, 1541459225⟩

/-- Big-endian packing of bytes into 32-bit words. -/
def toWords : List Nat → List Nat
  | b0 :: b1 :: b2 :: b3 :: rest => (((b0 * 256 + b1) * 256 + b2) * 256 + b3) :: toWords rest
  | _ => []

/-- Message-schedule extension: append `rounds` additional schedule words. -/
def extendSchedule (acc : List Nat) : Nat → List Nat
  | 0 => acc
  | r + 1 =>
    let i := acc.length
    let nw := w32 (ssig1 (acc.getD (i - 2) 0) + acc.getD (i - 7) 0 +
                   ssig0 (acc.getD (i - 15) 0) + acc.getD (i - 16) 0)
    extendSchedule (acc ++ [nw]) r

/-- One round of the SHA-256 compression function. -/
def shaRound (s : Hash8) (kw : Nat × Nat) : Hash8 :=
  let ch := w32 ((s.e &&& s.f) ^^^ ((s.e ^^^ 4294967295) &&& s.g))
  let maj := w32 ((s.a &&& s.b) ^^^ (s.a &&& s.c) ^^^ (s.b &&& s.c))
  let t1 := w32 (s.h + bsig1 s.e + ch + kw.1 + kw.2)
  let t2 := w32 (bsig0 s.a + maj)
  ⟨w32 (t1 + t2), s.a, s.b, s.c, w32 (s.d + t1), s.e, s.f, s.g⟩

/-- Compression of one padded 64-byte block. -/
def shaCompress (h : Hash8) (block : List Nat) : Hash8 :=
  let ws := extendSchedule (toWords block) 48
  let s := (shaK.zip ws).foldl shaRound h
  ⟨w32 (h.a + s.a), w32 (h.b + s.b), w32 (h.c + s.c), w32 (h.d + s.d),
   w32 (h.e + s.e), w32 (h.f + s.f), w32 (h.g + s.g), w32 (h.h + s.h)⟩

/-- Splitting a list into consecutive chunks of `n` elements (the last chunk
may be shorter).  `n = 0` is never used and returns the mirror list whole. -/
def chunkList (n : Nat) : List Nat → List (List Nat)
  | [] => []
  | x :: xs =>
    if _h : n = 0 then [x :: xs]
    else (x :: xs).take n :: chunkList n ((x :: xs).drop n)
termination_by l => l.length
decreasing_by
  simp only [List.length_drop, List.length_cons]
  omega

/-- Big-endian encoding of `n` into `k` bytes. -/
def beBytes (k n : Nat) : List Nat :=
  (List.range k).map (fun i => (n >>> (8 * (k - 1 - i))) % 256)

/-- SHA-256 padding: `0x80`, zeros to 56 mod 64, then the 64-bit big-endian
bit length. -/
def shaPad (msg : List Nat) : List Nat :=
  let l := msg.length
  let zeros := (119 - l % 64) % 64
  msg ++ [128] ++ List.replicate zeros 0 ++ beBytes 8 (8 * l)

/-- The SHA-256 digest (32 bytes) of a byte list. -/
def sha256 (msg : List Nat) : List Nat :=
  let final := (chunkList 64 (shaPad msg)).foldl shaCompress shaH0
  beBytes 4 final.a ++ beBytes 4 final.b ++ beBytes 4 final.c ++ beBytes 4 final.d ++
  beBytes 4 final.e ++ beBytes 4 final.f ++ beBytes 4 final.g ++ beBytes 4 final.h

/-- One lowercase hexadecimal digit. -/
def hexDigit (n : Nat) : Char :=
  if n < 10 then Char.ofNat (48 + n) else Char.ofNat (87 + n)

/-- Two-digit lowercase hexadecimal rendering of a byte. -/
def byteHex (b : Nat) : List Char := [hexDigit (b / 16), hexDigit (b % 16)]

/-- Lowercase hexadecimal digest string, as `hashlib`'s `hexdigest()`. -/
def sha256hex (msg : List Nat) : String :=
  String.mk ((sha256 msg).flatMap byteHex)

/-! ## MediaHandler: checksums (`media_handler.py`, lines 46-109)

A `hashlib.sha256()` object is modelled by the byte list it has absorbed:
`update` appends, `hexdigest` applies `sha256hex` to the absorbed bytes.
This is the documented semantics of incremental hashing (`update(a);
update(b)` is `update(a + b)`). -/

/-- Absorb one chunk into an incremental hasher. -/
def hashUpdate (ctx chunk : List Nat) : List Nat := ctx ++ chunk

/-- Model of `MediaHandler.calculate_checksum`: open the file, read it in 8192-byte
chunks, feed each chunk to the hasher, return the hex digest.  The file is
represented by its byte content. -/
def calculate_checksum (fileBytes : List Nat) : String :=
  sha256hex ((chunkList 8192 fileBytes).foldl hashUpdate [])

/-- Model of `MediaHandler.calculate_checksum_from_bytes`: hash the whole buffer at
once. -/
def calculate_checksum_from_bytes (data : List Nat) : String :=
  sha256hex data

/-- A seekable binary stream: underlying bytes plus the current read
position (`tell()`). -/
structure ByteStream where
  data : List Nat
  pos : Nat
deriving DecidableEq

/-- Python `stream.read(n)`: up to `n` bytes from the current position,
advancing the position by the number of bytes actually read. -/
def streamRead (s : ByteStream) (n : Nat) : List Nat × ByteStream :=
  let chunk := (s.data.drop s.pos).take n
  (chunk, { s with pos := s.pos + chunk.length })

/-- The `iter(lambda: stream.read(8192), b"")` loop of
`calculate_checksum_from_stream`: read chunks until an empty read, feeding
each chunk to the hasher. -/
def streamHashLoop (s : ByteStream) (ctx : List Nat) : List Nat × ByteStream :=
  if hr : (streamRead s 8192).1 = [] then (ctx, s)
  else streamHashLoop (streamRead s 8192).2 (hashUpdate ctx (streamRead s 8192).1)
termination_by s.data.length - s.pos
decreasing_by
  have hne : ((s.data.drop s.pos).take 8192) ≠ [] := hr
  have hlen : 0 < ((s.data.drop s.pos).take 8192).length := List.length_pos.mpr hne
  simp only [streamRead, List.length_take, List.length_drop] at hlen ⊢
  omega

/-- Model of `MediaHandler.calculate_checksum_from_stream`: remember `tell()`, seek
to 0, hash all chunks, seek back to the remembered position, return the hex
digest.  Returns the digest together with the stream as left behind. -/
def calculate_checksum_from_stream (s : ByteStream) : String × ByteStream :=
  let originalPosition := s.pos
  let started : ByteStream := { s with pos := 0 }
  let r := streamHashLoop started []
  (sha256hex r.1, { r.2 with pos := originalPosition })

/-! ## MediaHandler: type detection and validation
(`media_handler.py`, lines 133-170 and 238-298)

`libmagic` and the `mimetypes` table are external collaborators; they enter
the model as oracle values.  A `.error` outcome of an oracle models the
Python call raising an exception (or, for libmagic, the import failing). -/

/-- Model of `MediaHandler.validate_media_type`: exact membership in the allow list,
or a `category/*` wildcard match; the empty type is always rejected. -/
def validate_media_type (mime_type : String) (allowed_types : List String) : Bool :=
  if mime_type = "" then false
  else if allowed_types.contains mime_type then true
  else
    let category := ((splitChars '/' (strChars mime_type)).headD []).asString
    allowed_types.contains (category ++ "/*")

/-- Model of `MediaHandler.validate_file_size`: size in bytes must not exceed
`max_size_mb * 1024 * 1024`. -/
def validate_file_size (file_size max_size_mb : Nat) : Bool :=
  file_size ≤ max_size_mb * 1024 * 1024

/-- Model of `MediaHandler.detect_mime`: libmagic first; on import failure or any
exception fall back to `mimetypes.guess_type`, defaulting to
`application/octet-stream` when the guess is falsy. -/
def detect_mime (magicResult : Except String String) (guessType : Option String) : String :=
  match magicResult with
  | .ok t => t
  | .error _ =>
    match guessType with
    | some m => if m = "" then "application/octet-stream" else m
    | none => "application/octet-stream"

/-- The observable behaviour of the filesystem and the type-detection
collaborators for one candidate file.  A `.error e` models the underlying
Python call raising an exception with message `e`. -/
structure FileOracle where
  existsResult : Except String Bool
  statSize : Except String Nat
  magicResult : Except String String
  guessType : Option String

/-- Python `PurePosixPath(s).name`: the last parsed component, or the empty
string. -/
def pyName (s : String) : String :=
  (pathParts s).getLastD ""

/-- Index of the last occurrence of a character, Python `s.rfind(c)` as an
`Option`. -/
def rfindIdx (c : Char) (l : List Char) : Option Nat :=
  ((l.enum.filter (fun p => p.2 = c)).getLast?).map (fun p => p.1)

/-- Python `PurePosixPath` suffix of a final component: `name[i:]` for the
last dot index `i` when `0 < i < len(name) - 1`, else empty. -/
def pySuffixOfName (name : List Char) : List Char :=
  match rfindIdx '.' name with
  | some i => if 0 < i ∧ i + 1 < name.length then name.drop i else []
  | none => []

/-- Python `PurePosixPath` stem of a final component. -/
def pyStemOfName (name : List Char) : List Char :=
  match rfindIdx '.' name with
  | some i => if 0 < i ∧ i + 1 < name.length then name.take i else name
  | none => name

/-- Python `Path(s).suffix.lower()` for a path string. -/
def pySuffixLower (s : String) : String :=
  String.mk ((pySuffixOfName (strChars (pyName s))).map Char.toLower)

/-- Model of `MediaHandler.validate_media`: ordered checks (existence, size, detected
MIME type, extension), short-circuiting on the first failure; any exception
raised by a check is caught and reported with category `error`.  The result
mirrors the Python 4-tuple `(is_valid, mime_type, category, error_message)`. -/
def validate_media (file_path : String) (o : FileOracle) (max_size_mb : Nat)
    (allowed_types allowed_extensions : List String) : Bool × String × String × String :=
  match o.existsResult with
  | .error e => (false, "unknown", "error", s!"Validation failed: {e}")
  | .ok false => (false, "unknown", "not_found", s!"File not found: {file_path}")
  | .ok true =>
    match o.statSize with
    | .error e => (false, "unknown", "error", s!"Validation failed: {e}")
    | .ok file_size =>
      if ¬ validate_file_size file_size max_size_mb then
        (false, "unknown", "size", s!"File size exceeds maximum limit of {max_size_mb}MB")
      else
        let mime_type := detect_mime o.magicResult o.guessType
        if ¬ validate_media_type mime_type allowed_types then
          (false, mime_type, "format", s!"Mime type {mime_type} not allowed")
        else
          let file_ext := pySuffixLower file_path
          if allowed_extensions ≠ [] ∧ ¬ allowed_extensions.contains file_ext then
            (false, mime_type, "extension", s!"File extension {file_ext} not allowed")
          else (true, mime_type, "none", "File is valid")

/-! ## MediaHandler: filename sanitization (`media_handler.py`, lines 199-236)

The Python function works on a `str`, i.e. a sequence of code points; the
model therefore works on `List Char`.  `len` in the truncation check counts
code points, not encoded bytes. -/

/-- The characters replaced with an underscore by `sanitize_filename`. -/
def riskyChars : List Char := ['<', '>', ':', '"', '|', '?', '*', '\\', '/', Char.ofNat 0]

/-- Python `c in ". "` for the `strip(". ")` call. -/
def isDotSpace (c : Char) : Bool := c = '.' ∨ c = ' '

/-- Python `s.strip(". ")`: drop leading and trailing dots and spaces. -/
def pyStrip (l : List Char) : List Char :=
  ((l.dropWhile isDotSpace).reverse.dropWhile isDotSpace).reverse

/-- Python slicing `s[:m]` for a possibly negative bound `m`. -/
def pySlice (m : Int) (l : List Char) : List Char :=
  if 0 ≤ m then l.take m.toNat else l.take (l.length - m.natAbs)

/-- UTF-8 encoded size in bytes of one code point. -/
def utf8Size (c : Char) : Nat :=
  if c.toNat < 128 then 1
  else if c.toNat < 2048 then 2
  else if c.toNat < 65536 then 3
  else 4

/-- UTF-8 encoded size in bytes of a character list. -/
def utf8Len (l : List Char) : Nat := (l.map utf8Size).sum

/-- The intermediate value of `sanitize_filename` before the length check:
strip directory components (`Path(filename).name`), replace risky
characters with `_`, strip edge dots and spaces, substitute `unnamed` for
an empty result. -/
def cleanedName (filename : List Char) : List Char :=
  let f := strChars (pyName (String.mk filename))
  let f := f.map (fun c => if riskyChars.contains c then '_' else c)
  let f := pyStrip f
  if f = [] then strChars "unnamed" else f

/-- Model of `MediaHandler.sanitize_filename`: clean the name, then if it exceeds
255 code points truncate the stem (`stem[:255 - len(suffix)]`) and keep the
suffix. -/
def sanitize_filename (filename : List Char) : List Char :=
  let f := cleanedName filename
  if 255 < f.length then
    let stem := pyStemOfName (strChars (pyName (String.mk f)))
    let suffix := pySuffixOfName (strChars (pyName (String.mk f)))
    let maxStemLength : Int := 255 - (suffix.length : Int)
    pySlice maxStemLength stem ++ suffix
  else f

/-! ## ZipHandler: archive and filesystem model (`zip_handler.py`)

An archive is its table of contents plus the bytes of each member;
`testzip()` is modelled by an optional corrupt member name.  The filesystem
under the staging and media destination roots is a record of written files
(path to bytes) and of directories created by `mkdir(parents=True)`. -/

/-- One archive member: the declared path, the declared uncompressed size
from the table of contents, and the actual bytes. -/
structure ZipEntry where
  filename : String
  size : Nat
  content : List Nat
deriving DecidableEq

/-- Model of `ZipInfo.is_dir()`: the declared path ends with a slash. -/
def isDirEntry (e : ZipEntry) : Bool := strEnds e.filename "/"

/-- A readable ZIP archive: `testzip()` result and the member list. -/
structure ZipArchive where
  corruptMember : Option String
  entries : List ZipEntry
deriving DecidableEq

/-- The filesystem slice visible to extraction: written files as an
association list from resolved path to bytes, plus the set of directories
created so far. -/
structure DiskState where
  files : List (List String × List Nat)
  dirs : List (List String)
deriving DecidableEq

/-- Contents of the file at `p`, if one was written there. -/
def fileGet (fs : DiskState) (p : List String) : Option (List Nat) :=
  (fs.files.find? (fun q => q.1 = p)).map (fun q => q.2)

/-- Model of `mkdir(parents=True, exist_ok=True)`: record the directory and every
ancestor. -/
def mkdirParents (fs : DiskState) (dir : List String) : DiskState :=
  { fs with dirs := fs.dirs ++ (List.range (dir.length + 1)).map (fun n => dir.take n) }

/-- Model of `open(target, "wb")` plus `shutil.copyfileobj`: create the parent chain
and write the bytes, replacing any previous file at that path. -/
def fileWrite (fs : DiskState) (p : List String) (c : List Nat) : DiskState :=
  let fs := mkdirParents fs p.dropLast
  { fs with files := (p, c) :: fs.files.filter (fun q => decide (q.1 ≠ p)) }

/-- Model of `Path.unlink()`: remove the file at `p`. -/
def fileErase (fs : DiskState) (p : List String) : DiskState :=
  { fs with files := fs.files.filter (fun q => decide (q.1 ≠ p)) }

/-- Python `Path.exists()` for a path that may be a file or a directory. -/
def pathExists (fs : DiskState) (p : List String) : Bool :=
  fs.dirs.contains p ∨ (fileGet fs p).isSome

/-! ## ZipHandler.stream_extract (`zip_handler.py`, lines 292-486) -/

/-- The failure modes of `stream_extract`.  In the source these are
`ValueError`s re-raised as `IOError`; the constructor keeps which message
was raised. -/
inductive ZipError where
  | corrupted
  | tooLarge (total maxMb : Nat)
  | badPath (filename : String)
  | dataFileMissing (sourceType : Option String)
  | dataFileNotFound (path : List String)
deriving DecidableEq

/-- The dictionary returned by a successful `stream_extract`. -/
structure ExtractResult where
  dataFile : List String
  mediaDir : Option (List String)
  totalSize : Nat
  fileCount : Nat
  warnings : List String
  warningCategories : List (String × Nat)
deriving DecidableEq

/-- The extraction-wide policy and collaborators: destination roots as
given by the caller, limits, the source-format tag, and the outcome of
`MediaHandler.validate_media` for each candidate target path (the
`settings` allow lists are already applied inside it). -/
structure ExtractConfig where
  extractTo : List String
  mediaDest : Option (List String)
  maxSizeMb : Nat
  validateMedia : Bool
  sourceType : Option String
  validator : List String → Bool × String × String × String

/-- Classification of an entry as media, format-dependent
(`zip_handler.py`, lines 366-369). -/
def isMediaFile (sourceType : Option String) (filename : String) : Bool :=
  if sourceType = some "dayone" then
    strStarts (strLower filename) "photos/" ∨ strStarts (strLower filename) "videos/"
  else strStarts filename "media/"

/-- Model of `Path(filename).relative_to("media")` under the guard that `filename`
starts with `media/`: drop the leading `media` component of the parsed
parts. -/
def mediaRelParts (filename : String) : List String :=
  match pathParts filename with
  | "media" :: rest => rest
  | parts => parts

/-- Destination selection for one entry (`zip_handler.py`, lines 371-387):
the unresolved target directory chosen by the zero-copy strategy, and the
resolved target path. -/
def entryTarget (cfg : ExtractConfig) (isMedia : Bool) (filename : String) :
    List String × List String :=
  match cfg.mediaDest with
  | some md =>
    if isMedia then
      let rel := if cfg.sourceType = some "dayone" then rawComps filename
                 else mediaRelParts filename
      (md, resolveComps (md ++ rel))
    else (cfg.extractTo, joinResolve cfg.extractTo filename)
  | none => (cfg.extractTo, joinResolve cfg.extractTo filename)

/-- The resolved target path of an entry. -/
def entryTargetPath (cfg : ExtractConfig) (e : ZipEntry) : List String :=
  (entryTarget cfg (isMediaFile cfg.sourceType e.filename) e.filename).2

/-- The per-entry path-containment check
(`target_path.relative_to(target_dir.resolve())`, lines 389-393). -/
def entrySafe (cfg : ExtractConfig) (e : ZipEntry) : Bool :=
  let t := entryTarget cfg (isMediaFile cfg.sourceType e.filename) e.filename
  (resolveComps t.1).isPrefixOf t.2

/-- The display label attached to a rejected media file
(`cat_map.get(category, ...)`, lines 425-432). -/
def displayCategory (category : String) : String :=
  if category = "size" then "Skipped due to size"
  else if category = "format" then "Skipped due to format"
  else if category = "extension" then "Skipped due to extension"
  else if category = "not_found" then "Skipped (not found)"
  else if category = "error" then "Skipped (error)"
  else s!"Skipped ({category})"

/-- The warning line recorded for a rejected media file (line 413). -/
def warnMsg (filename error_msg : String) : String :=
  s!"Media validation failed for {filename}: {error_msg}"

/-- Model of `warning_categories[display] = warning_categories.get(display, 0) + 1`
on an insertion-ordered dictionary. -/
def bumpCat (d : List (String × Nat)) (k : String) : List (String × Nat) :=
  if d.any (fun e => e.1 = k) then
    d.map (fun e => if e.1 = k then (k, e.2 + 1) else e)
  else d ++ [(k, 1)]

/-- Lookup `d.get(k, 0)` in the category dictionary. -/
def catCount (d : List (String × Nat)) (k : String) : Nat :=
  ((d.find? (fun e => e.1 = k)).map (fun e => e.2)).getD 0

/-- The mutable state of the extraction loop: the filesystem, the warning
list, the category histogram, and the progress calls issued so far. -/
structure ExtState where
  fs : DiskState
  warnings : List String
  cats : List (String × Nat)
  progress : List (Nat × Nat)
deriving DecidableEq

/-- Processing of the entry at 1-based position `idx` (`zip_handler.py`,
lines 360-453): skip directories; pick the destination; check containment
immediately before writing; stream-copy; validate media and delete on
rejection; report progress. -/
def processEntry (cfg : ExtractConfig) (totalFiles : Nat) (st : ExtState) (idx : Nat)
    (e : ZipEntry) : ExtState × Option ZipError :=
  if isDirEntry e then (st, none)
  else if entrySafe cfg e then
    let isMedia := isMediaFile cfg.sourceType e.filename
    let targetPath := entryTargetPath cfg e
    let st1 := { st with fs := fileWrite st.fs targetPath e.content }
    let st2 :=
      if isMedia ∧ cfg.validateMedia then
        let v := cfg.validator targetPath
        if v.1 then st1
        else
          let fname := e.filename
          let emsg := v.2.2.2
          let fsAfter :=
            if (fileGet st1.fs targetPath).isSome then fileErase st1.fs targetPath
            else st1.fs
          { st1 with warnings := st1.warnings ++ [warnMsg fname emsg],
                     cats := bumpCat st1.cats (displayCategory v.2.2.1),
                     fs := fsAfter }
      else st1
    ({ st2 with progress := st2.progress ++ [(idx, totalFiles)] }, none)
  else (st, some (.badPath e.filename))

/-- The `for idx, info in enumerate(entries, start=1)` loop. -/
def runEntries (cfg : ExtractConfig) (totalFiles : Nat) :
    ExtState → Nat → List ZipEntry → ExtState × Option ZipError
  | st, _, [] => (st, none)
  | st, idx, e :: rest =>
    match processEntry cfg totalFiles st idx e with
    | (st1, none) => runEntries cfg totalFiles st1 (idx + 1) rest
    | (st1, some err) => (st1, some err)

/-- The first root-level `*.json` file below `root`, modelling
`extract_to.glob("*.json")` for the Day One branch. -/
def globRootJson (fs : DiskState) (root : List String) : Option (List String) :=
  ((fs.files.find? (fun q =>
      q.1.length = root.length + 1 ∧ root.isPrefixOf q.1 ∧
      strEnds (q.1.getLastD "") ".json")).map (fun q => q.1))

/-- The full observable outcome of one `stream_extract` call: the returned
dictionary or the raised error, the filesystem afterwards, and the sequence
of `(processed, total)` progress calls. -/
structure StreamRun where
  result : Except ZipError ExtractResult
  fs : DiskState
  progress : List (Nat × Nat)

/-- Whether a run returned normally. -/
def resultIsOk : Except ZipError ExtractResult → Bool
  | .ok _ => true
  | .error _ => false

/-- The error raised by a run, if any. -/
def raisedError : Except ZipError ExtractResult → Option ZipError
  | .ok _ => none
  | .error e => some e

/-- The returned dictionary of a run, if any. -/
def returnedResult : Except ZipError ExtractResult → Option ExtractResult
  | .ok r => some r
  | .error _ => none

/-- The loop state just after `extract_to.mkdir(parents=True, exist_ok=True)`
and before the first entry. -/
def initState (cfg : ExtractConfig) (fs0 : DiskState) : ExtState :=
  { fs := mkdirParents fs0 (resolveComps cfg.extractTo),
    warnings := [], cats := [], progress := [] }

/-- Model of `ZipHandler.stream_extract`: integrity check, total declared size
ceiling, per-entry extraction, then locating the data file and the media
directory (`zip_handler.py`, lines 292-486). -/
def stream_extract (cfg : ExtractConfig) (A : ZipArchive) (fs0 : DiskState) : StreamRun :=
  match A.corruptMember with
  | some _ => { result := .error .corrupted, fs := fs0, progress := [] }
  | none =>
    let totalSize := (A.entries.map (fun e => e.size)).sum
    let maxBytes := cfg.maxSizeMb * 1024 * 1024
    if maxBytes < totalSize then
      { result := .error (.tooLarge totalSize cfg.maxSizeMb), fs := fs0, progress := [] }
    else
      let extractToR := resolveComps cfg.extractTo
      let st0 := initState cfg fs0
      let total := A.entries.length
      let r := runEntries cfg total st0 1 A.entries
      match r.2 with
      | some err => { result := .error err, fs := r.1.fs, progress := r.1.progress }
      | none =>
        let st := r.1
        let dataFile :=
          if cfg.sourceType = some "dayone" then globRootJson st.fs extractToR
          else some (extractToR ++ ["data.json"])
        let mediaDir0 :=
          if cfg.sourceType = some "dayone" then extractToR else extractToR ++ ["media"]
        let mediaDir1 :=
          match cfg.mediaDest with
          | some md =>
            if pathExists st.fs (resolveComps md) then resolveComps md else mediaDir0
          | none => mediaDir0
        match dataFile with
        | none =>
          { result := .error (.dataFileMissing cfg.sourceType), fs := st.fs,
            progress := st.progress }
        | some df =>
          if (fileGet st.fs df).isSome then
            { result := .ok {
                dataFile := df,
                mediaDir := if pathExists st.fs mediaDir1 then some mediaDir1 else none,
                totalSize := totalSize,
                fileCount := A.entries.length,
                warnings := st.warnings,
                warningCategories := st.cats },
              fs := st.fs, progress := st.progress }
          else
            { result := .error (.dataFileNotFound df), fs := st.fs,
              progress := st.progress }

/-! ## ZipHandler.validate_zip_structure (`zip_handler.py`, lines 195-290) -/

/-- The exceptions the `validate_zip_structure` handlers distinguish. -/
inductive PyExc where
  | badZip (msg : String)
  | osErr (msg : String)
  | runtime (msg : String)
  | other (msg : String)
deriving DecidableEq

/-- The single `errors` entry produced by each `except` handler. -/
def excMessage : PyExc → String
  | .badZip m => s!"Invalid ZIP file: {m}"
  | .osErr m => s!"File system error: {m}"
  | .runtime m => s!"Runtime error during validation: {m}"
  | .other m => s!"Validation error: {m}"

/-- The dictionary returned by `validate_zip_structure`. -/
structure ZipValidationResult where
  valid : Bool
  has_data_file : Bool
  has_media : Bool
  file_count : Nat
  total_size : Nat
  errors : List String
deriving DecidableEq

/-- Model of `ZipHandler.validate_zip_structure`: open the archive (any exception is
converted into a single error entry), return immediately on a corrupt
member, then check the data file, the media area, and scan every name for
traversal markers without early exit. -/
def validate_zip_structure (openResult : Except PyExc ZipArchive)
    (source_type : Option String) : ZipValidationResult :=
  match openResult with
  | .error e =>
    { valid := false, has_data_file := false, has_media := false,
      file_count := 0, total_size := 0, errors := [excMessage e] }
  | .ok A =>
    match A.corruptMember with
    | some bad =>
      { valid := false, has_data_file := false, has_media := false,
        file_count := 0, total_size := 0, errors := [s!"Corrupted file in ZIP: {bad}"] }
    | none =>
      let file_list := A.entries.map (fun e => e.filename)
      let file_count := file_list.length
      let total_size := (A.entries.map (fun e => e.size)).sum
      let hasData :=
        if source_type = some "dayone" then
          file_list.any (fun f => strEnds f ".json" ∧ ¬ strHasSlash f)
        else file_list.contains "data.json"
      let dataErrors :=
        if hasData then ([] : List String)
        else if source_type = some "dayone" then
          ["Missing JSON file at root (Day One format expects JournalName.json)"]
        else ["Missing data.json file"]
      let has_media :=
        if source_type = some "dayone" then
          file_list.any (fun f => strStarts f "photos/" ∨ strStarts f "Photos/" ∨
            strStarts f "videos/" ∨ strStarts f "Videos/")
        else file_list.any (fun f => strStarts f "media/")
      let traversalNames := file_list.filter (fun f => strHasDotDot f ∨ strStarts f "/")
      { valid := dataErrors = [] ∧ traversalNames = [],
        has_data_file := hasData,
        has_media := has_media,
        file_count := file_count,
        total_size := total_size,
        errors := dataErrors ++ traversalNames.map (fun f => s!"Unsafe path in ZIP: {f}") }

/-! ## Helper lemmas about chunked reading and the hash model -/

theorem foldl_hashUpdate (l : List (List Nat)) (a : List Nat) :
    l.foldl hashUpdate a = a ++ l.flatten := by
  induction l generalizing a with
  | nil => simp
  | cons x xs ih => simp [hashUpdate, ih, List.append_assoc]

theorem chunkList_flatten (n : Nat) (l : List Nat) : (chunkList n l).flatten = l := by
  have H : ∀ (k : Nat) (l : List Nat), l.length ≤ k → (chunkList n l).flatten = l := by
    intro k
    induction k with
    | zero =>
      intro l hl
      have hnil : l = [] := List.eq_nil_of_length_eq_zero (Nat.le_zero.mp hl)
      subst hnil
      simp [chunkList]
    | succ k ih =>
      intro l hl
      match l with
      | [] => simp [chunkList]
      | x :: xs =>
        rw [chunkList]
        by_cases h0 : n = 0
        · simp [h0]
        · rw [dif_neg h0]
          have hdrop : ((x :: xs).drop n).length ≤ k := by
            simp only [List.length_drop, List.length_cons]
            have h1 : 1 ≤ n := Nat.one_le_iff_ne_zero.mpr h0
            have h2 : xs.length + 1 ≤ k + 1 := by simpa using hl
            omega
          rw [List.flatten_cons, ih _ hdrop]
          exact List.take_append_drop n (x :: xs)
  exact H l.length l le_rfl

theorem take_append_drop_self (l : List Nat) (n : Nat) :
    l.take n ++ l.drop ((l.take n).length) = l := by
  have h1 : (l.take n).length = min n l.length := List.length_take _ _
  rcases Nat.le_total n l.length with h | h
  · rw [h1, Nat.min_eq_left h]
    exact List.take_append_drop _ _
  · rw [h1, Nat.min_eq_right h, List.drop_length, List.append_nil]
    exact List.take_of_length_le h

theorem streamHashLoop_spec (s : ByteStream) (ctx : List Nat) :
    (streamHashLoop s ctx).1 = ctx ++ s.data.drop s.pos ∧
    (streamHashLoop s ctx).2.data = s.data := by
  have H : ∀ (k : Nat) (s : ByteStream) (ctx : List Nat), s.data.length - s.pos ≤ k →
      (streamHashLoop s ctx).1 = ctx ++ s.data.drop s.pos ∧
      (streamHashLoop s ctx).2.data = s.data := by
    intro k
    induction k with
    | zero =>
      intro s ctx hk
      have hdrop : s.data.drop s.pos = [] := by
        apply List.eq_nil_of_length_eq_zero
        simp only [List.length_drop]
        omega
      rw [streamHashLoop]
      simp [streamRead, hdrop]
    | succ k ih =>
      intro s ctx hk
      rw [streamHashLoop]
      by_cases hc : (streamRead s 8192).1 = []
      · rw [dif_pos hc]
        have hc2 : (s.data.drop s.pos).take 8192 = [] := hc
        have hdrop : s.data.drop s.pos = [] := by
          rcases List.take_eq_nil_iff.mp hc2 with h | h
          · omega
          · exact h
        exact ⟨by simp [hdrop], rfl⟩
      · rw [dif_neg hc]
        have hc2 : (s.data.drop s.pos).take 8192 ≠ [] := hc
        have hlen : 0 < ((s.data.drop s.pos).take 8192).length := List.length_pos.mpr hc2
        have hposlt : s.pos < s.data.length := by
          simp only [List.length_take, List.length_drop] at hlen
          omega
        have hmeas : (streamRead s 8192).2.data.length - (streamRead s 8192).2.pos ≤ k := by
          simp only [streamRead, List.length_take, List.length_drop]
          omega
        have hrec := ih (streamRead s 8192).2 (hashUpdate ctx (streamRead s 8192).1) hmeas
        refine ⟨?_, hrec.2⟩
        rw [hrec.1]
        show hashUpdate ctx ((s.data.drop s.pos).take 8192) ++
            s.data.drop (s.pos + ((s.data.drop s.pos).take 8192).length) =
          ctx ++ s.data.drop s.pos
        simp only [hashUpdate, List.append_assoc]
        congr 1
        have hdd : s.data.drop (s.pos + ((s.data.drop s.pos).take 8192).length) =
            (s.data.drop s.pos).drop (((s.data.drop s.pos).take 8192).length) := by
          rw [List.drop_drop]
        rw [hdd]
        exact take_append_drop_self (s.data.drop s.pos) 8192
  exact H (s.data.length - s.pos) s ctx le_rfl

/-- C6: the SHA-256 checksum is the same whether computed from the file
path (chunked read of the file's bytes), from the full in-memory byte
buffer, or from a seekable stream positioned anywhere; the stream variant
hands the stream back with data and position unchanged. -/
theorem c6_checksum_agreement (content : List Nat) (pos : Nat) :
    calculate_checksum content = calculate_checksum_from_bytes content
  ∧ (calculate_checksum_from_stream ⟨content, pos⟩).1 = calculate_checksum_from_bytes content
  ∧ (calculate_checksum_from_stream ⟨content, pos⟩).2 = ⟨content, pos⟩ := by
  have hloop := streamHashLoop_spec ⟨content, 0⟩ []
  refine ⟨?_, ?_, ?_⟩
  · unfold calculate_checksum calculate_checksum_from_bytes
    rw [foldl_hashUpdate, List.nil_append, chunkList_flatten]
  · show sha256hex (streamHashLoop ⟨content, 0⟩ []).1 = sha256hex content
    rw [hloop.1]
    simp
  · show ({ (streamHashLoop ⟨content, 0⟩ []).2 with pos := pos } : ByteStream) = ⟨content, pos⟩
    have heta : ∀ (b : ByteStream) (p : Nat), ({ b with pos := p } : ByteStream) = ⟨b.data, p⟩ :=
      fun b p => rfl
    rw [heta, hloop.2]

/-! ## C5 and C10: validate_media ordering and detect_mime fallback -/

/-- The type category used for wildcard matching (`mime_type.split("/")[0]`). -/
def mimeCategory (t : String) : String :=
  ((splitChars '/' (strChars t)).headD []).asString

theorem detect_mime_ne_empty (magicResult : Except String String) (guess : Option String)
    (hmagic : ∀ t, magicResult = .ok t → t ≠ "") :
    detect_mime magicResult guess ≠ "" := by
  unfold detect_mime
  cases magicResult with
  | ok t => exact hmagic t rfl
  | error e =>
    cases guess with
    | none => simp
    | some m =>
      by_cases hm : m = ""
      · simp [hm]
      · simp [hm]

theorem validate_media_mime_shape (p : String) (o : FileOracle) (m : Nat) (ts es : List String) :
    (validate_media p o m ts es).2.1 = "unknown" ∨
    (validate_media p o m ts es).2.1 = detect_mime o.magicResult o.guessType := by
  unfold validate_media
  cases o.existsResult with
  | error em => simp
  | ok b =>
    cases b with
    | false => simp
    | true =>
      cases o.statSize with
      | error em => simp
      | ok sz =>
        dsimp only
        split_ifs <;> simp

/-- C5: `validate_media` applies existence, size, detected-MIME and
extension checks in that order, short-circuiting on the first failure with
categories `not_found`, `size`, `format`, `extension`; MIME membership is
exact or by `category/*` wildcard; a passing file yields category `none`
with the detected MIME type; any exception raised by a check is caught and
reported with category `error` instead of propagating. -/
theorem c5_validate_media_order :
    (∀ (p : String) (o : FileOracle) (m : Nat) (ts es : List String) (em : String),
        o.existsResult = .error em →
        validate_media p o m ts es = (false, "unknown", "error", s!"Validation failed: {em}"))
  ∧ (∀ (p : String) (o : FileOracle) (m : Nat) (ts es : List String),
        o.existsResult = .ok false →
        validate_media p o m ts es = (false, "unknown", "not_found", s!"File not found: {p}"))
  ∧ (∀ (p : String) (o : FileOracle) (m : Nat) (ts es : List String) (em : String),
        o.existsResult = .ok true → o.statSize = .error em →
        validate_media p o m ts es = (false, "unknown", "error", s!"Validation failed: {em}"))
  ∧ (∀ (p : String) (o : FileOracle) (m : Nat) (ts es : List String) (sz : Nat),
        o.existsResult = .ok true → o.statSize = .ok sz →
        validate_file_size sz m = false →
        validate_media p o m ts es =
          (false, "unknown", "size", s!"File size exceeds maximum limit of {m}MB"))
  ∧ (∀ (p : String) (o : FileOracle) (m : Nat) (ts es : List String) (sz : Nat),
        o.existsResult = .ok true → o.statSize = .ok sz →
        validate_file_size sz m = true →
        validate_media_type (detect_mime o.magicResult o.guessType) ts = false →
        validate_media p o m ts es =
          (false, detect_mime o.magicResult o.guessType, "format",
            s!"Mime type {detect_mime o.magicResult o.guessType} not allowed"))
  ∧ (∀ (p : String) (o : FileOracle) (m : Nat) (ts es : List String) (sz : Nat),
        o.existsResult = .ok true → o.statSize = .ok sz →
        validate_file_size sz m = true →
        validate_media_type (detect_mime o.magicResult o.guessType) ts = true →
        es ≠ [] → es.contains (pySuffixLower p) = false →
        validate_media p o m ts es =
          (false, detect_mime o.magicResult o.guessType, "extension",
            s!"File extension {pySuffixLower p} not allowed"))
  ∧ (∀ (p : String) (o : FileOracle) (m : Nat) (ts es : List String) (sz : Nat),
        o.existsResult = .ok true → o.statSize = .ok sz →
        validate_file_size sz m = true →
        validate_media_type (detect_mime o.magicResult o.guessType) ts = true →
        (es = [] ∨ es.contains (pySuffixLower p) = true) →
        validate_media p o m ts es =
          (true, detect_mime o.magicResult o.guessType, "none", "File is valid"))
  ∧ (∀ (t : String) (ts : List String),
        validate_media_type t ts = true ↔
          t ≠ "" ∧ (ts.contains t = true ∨ ts.contains (mimeCategory t ++ "/*") = true)) := by
  refine ⟨?_, ?_, ?_, ?_, ?_, ?_, ?_, ?_⟩
  · intro p o m ts es em h
    unfold validate_media
    rw [h]
  · intro p o m ts es h
    unfold validate_media
    rw [h]
  · intro p o m ts es em h1 h2
    unfold validate_media
    rw [h1, h2]
  · intro p o m ts es sz h1 h2 h3
    unfold validate_media
    rw [h1, h2]
    simp [h3]
  · intro p o m ts es sz h1 h2 h3 h4
    unfold validate_media
    rw [h1, h2]
    simp [h3, h4]
  · intro p o m ts es sz h1 h2 h3 h4 h5 h6
    unfold validate_media
    rw [h1, h2]
    have h6' : pySuffixLower p ∉ es := by simpa using h6
    simp [h3, h4, h5, h6']
  · intro p o m ts es sz h1 h2 h3 h4 h5
    unfold validate_media
    rw [h1, h2]
    rcases h5 with h5 | h5
    · simp [h3, h4, h5]
    · have h5' : pySuffixLower p ∈ es := by simpa using h5
      simp [h3, h4, h5']
  · intro t ts
    unfold validate_media_type mimeCategory
    by_cases ht : t = ""
    · simp [ht]
    · rw [if_neg ht]
      by_cases hmem : ts.contains t = true
      · simp [ht, hmem]
      · simp [ht, hmem]

/-- Witness for C5: a file that passes every check, with concrete oracle
outcomes. -/
theorem c5_witness :
    validate_media "media/e1/photo.jpg"
        ⟨.ok true, .ok 1000, .ok "image/jpeg", some "image/jpeg"⟩
        10 ["image/jpeg"] [".jpg"] =
      (true, "image/jpeg", "none", "File is valid") :=
  (c5_validate_media_order.2.2.2.2.2.2.1 "media/e1/photo.jpg"
      ⟨.ok true, .ok 1000, .ok "image/jpeg", some "image/jpeg"⟩
      10 ["image/jpeg"] [".jpg"] 1000 rfl rfl (by decide) (by decide)
      (Or.inr (by decide)))

/-- C10: `detect_mime` is total and never yields an empty type (granted
that libmagic, when it succeeds, reports a non-empty string): on a libmagic
failure it falls back to the `mimetypes` guess, and when that guess is
absent or falsy it returns `application/octet-stream`; consequently
`validate_media` always carries a non-empty detected MIME type. -/
theorem c10_detect_mime_fallback :
    (∀ (magicResult : Except String String) (guess : Option String),
        (∀ t, magicResult = .ok t → t ≠ "") →
        detect_mime magicResult guess ≠ "")
  ∧ (∀ (em : String) (g : String),
        g ≠ "" → detect_mime (.error em) (some g) = g)
  ∧ (∀ (em : String),
        detect_mime (.error em) none = "application/octet-stream"
        ∧ detect_mime (.error em) (some "") = "application/octet-stream")
  ∧ (∀ (p : String) (o : FileOracle) (m : Nat) (ts es : List String),
        (∀ t, o.magicResult = .ok t → t ≠ "") →
        (validate_media p o m ts es).2.1 ≠ "") := by
  refine ⟨fun mr g h => detect_mime_ne_empty mr g h, ?_, ?_, ?_⟩
  · intro em g hg
    unfold detect_mime
    simp [hg]
  · intro em
    exact ⟨rfl, rfl⟩
  · intro p o m ts es hmagic
    have hne : detect_mime o.magicResult o.guessType ≠ "" :=
      detect_mime_ne_empty o.magicResult o.guessType hmagic
    rcases validate_media_mime_shape p o m ts es with h | h
    · rw [h]
      decide
    · rw [h]
      exact hne

/-- Witness for C10: a concrete failing libmagic call with no usable guess
falls back to `application/octet-stream`, which is non-empty. -/
theorem c10_witness :
    detect_mime (.error "magic failed") none ≠ ""
    ∧ detect_mime (.error "magic failed") none = "application/octet-stream" :=
  ⟨c10_detect_mime_fallback.1 (.error "magic failed") none (fun t h => by cases h),
   (c10_detect_mime_fallback.2.2.1 "magic failed").1⟩

/-! ## C9: totality of validate_zip_structure -/

/-- C9: `validate_zip_structure` always hands back a result record: every
exception raised while opening or reading the archive is converted into a
record with `valid = false` and exactly one error message (this covers
arbitrary exceptions, not only I/O faults), and a corrupt member reported
by the integrity check returns immediately with that member's name in
`errors`, `file_count = 0` and `total_size = 0`.  Totality at the boundary
is structural: the codomain is the plain record type, so no exception can
propagate. -/
theorem c9_validate_zip_total :
    (∀ (e : PyExc) (st : Option String),
        validate_zip_structure (.error e) st =
          { valid := false, has_data_file := false, has_media := false,
            file_count := 0, total_size := 0, errors := [excMessage e] }
        ∧ (validate_zip_structure (.error e) st).valid = false
        ∧ (validate_zip_structure (.error e) st).errors ≠ [])
  ∧ (∀ (A : ZipArchive) (st : Option String) (bad : String),
        A.corruptMember = some bad →
        validate_zip_structure (.ok A) st =
          { valid := false, has_data_file := false, has_media := false,
            file_count := 0, total_size := 0,
            errors := [s!"Corrupted file in ZIP: {bad}"] }) := by
  constructor
  · intro e st
    refine ⟨rfl, rfl, ?_⟩
    simp [validate_zip_structure]
  · intro A st bad h
    unfold validate_zip_structure
    dsimp only
    rw [h]

/-- Witness for C9: a concrete archive whose integrity check reports a
corrupt member, and a concrete raised exception. -/
theorem c9_witness :
    validate_zip_structure (.ok ⟨some "media/e1/a.jpg", [⟨"data.json", 2, [1, 2]⟩]⟩) none =
      { valid := false, has_data_file := false, has_media := false,
        file_count := 0, total_size := 0,
        errors := ["Corrupted file in ZIP: media/e1/a.jpg"] } :=
  c9_validate_zip_total.2 ⟨some "media/e1/a.jpg", [⟨"data.json", 2, [1, 2]⟩]⟩ none
    "media/e1/a.jpg" rfl

/-! ## C7 and C8: helper lemmas about sanitize_filename -/

theorem dropWhile_headD_false (p : Char → Bool) (l : List Char) (d : Char)
    (h : l.dropWhile p ≠ []) : p ((l.dropWhile p).headD d) = false := by
  induction l with
  | nil => simp at h
  | cons c rest ih =>
    rw [List.dropWhile_cons] at h ⊢
    by_cases hc : p c = true
    · rw [if_pos hc] at h ⊢
      exact ih h
    · rw [if_neg hc]
      simpa using hc

theorem pyStrip_subset (l : List Char) : ∀ c ∈ pyStrip l, c ∈ l := by
  intro c hc
  unfold pyStrip at hc
  rw [List.mem_reverse] at hc
  have h1 := (List.dropWhile_suffix isDotSpace).subset hc
  rw [List.mem_reverse] at h1
  exact (List.dropWhile_suffix isDotSpace).subset h1

theorem pyStrip_headD (l : List Char) (h : pyStrip l ≠ []) :
    isDotSpace ((pyStrip l).headD 'x') = false := by
  unfold pyStrip at h ⊢
  set a := l.dropWhile isDotSpace with ha
  have hpre : (a.reverse.dropWhile isDotSpace).reverse <+: a.reverse.reverse :=
    List.reverse_prefix.mpr (List.dropWhile_suffix isDotSpace)
  rw [List.reverse_reverse] at hpre
  obtain ⟨t, ht⟩ := hpre
  cases hb : (a.reverse.dropWhile isDotSpace).reverse with
  | nil => exact absurd hb h
  | cons c rest =>
    rw [hb] at ht
    have ha_ne : a ≠ [] := by
      rw [← ht]
      simp
    have hhead : a.headD 'x' = c := by
      rw [← ht]
      rfl
    have hfalse := dropWhile_headD_false isDotSpace l 'x' ha_ne
    have hc : isDotSpace c = false := by
      rw [← hhead]
      exact hfalse
    simpa using hc

theorem pyStrip_getLastD (l : List Char) (h : pyStrip l ≠ []) :
    isDotSpace ((pyStrip l).getLastD 'x') = false := by
  unfold pyStrip at h ⊢
  set a := l.dropWhile isDotSpace with ha
  set b := a.reverse.dropWhile isDotSpace with hb
  have hbne : b ≠ [] := by
    intro hnil
    rw [hnil] at h
    exact h rfl
  have hhead := dropWhile_headD_false isDotSpace a.reverse 'x' (by rw [← hb]; exact hbne)
  rw [← hb] at hhead
  have hswap : b.reverse.getLastD 'x' = b.headD 'x' := by
    rw [List.getLastD_eq_getLast?, List.getLast?_reverse, List.headD_eq_head?]
  rw [hswap]
  exact hhead

theorem cleanedName_ne_nil (fn : List Char) : cleanedName fn ≠ [] := by
  unfold cleanedName
  dsimp only
  split
  · decide
  · rename_i h
    exact h

theorem cleanedName_no_risky (fn : List Char) :
    ∀ c ∈ cleanedName fn, riskyChars.contains c = false := by
  intro c hc
  unfold cleanedName at hc
  dsimp only at hc
  split at hc
  · have hall : ∀ x ∈ strChars "unnamed", riskyChars.contains x = false := by decide
    exact hall c hc
  · have h1 := pyStrip_subset _ c hc
    rcases List.mem_map.mp h1 with ⟨a, _, rfl⟩
    by_cases hra : riskyChars.contains a = true
    · rw [if_pos hra]
      decide
    · rw [if_neg hra]
      simpa using hra

theorem cleanedName_headD (fn : List Char) :
    isDotSpace ((cleanedName fn).headD 'x') = false := by
  unfold cleanedName
  dsimp only
  split
  · decide
  · rename_i h
    exact pyStrip_headD _ h

theorem cleanedName_getLastD (fn : List Char) :
    isDotSpace ((cleanedName fn).getLastD 'x') = false := by
  unfold cleanedName
  dsimp only
  split
  · decide
  · rename_i h
    exact pyStrip_getLastD _ h

theorem cleanedName_no_slash (fn : List Char) : '/' ∉ cleanedName fn := by
  intro h
  exact absurd (cleanedName_no_risky fn '/' h) (by decide)

theorem cleanedName_ne_dot (fn : List Char) : cleanedName fn ≠ ['.'] := by
  intro h
  have hh := cleanedName_headD fn
  rw [h] at hh
  exact absurd hh (by decide)

theorem splitChars_no_sep (sep : Char) (l : List Char) (h : sep ∉ l) :
    splitChars sep l = [l] := by
  induction l with
  | nil => rfl
  | cons c rest ih =>
    have hc : ¬ (c = sep) := by
      intro e
      exact h (e ▸ List.mem_cons_self c rest)
    have hr : sep ∉ rest := fun m => h (List.mem_cons_of_mem c m)
    simp only [splitChars, ih hr]
    rw [if_neg hc]

theorem pyName_mk_eq (y : List Char) (hnil : y ≠ []) (hdot : y ≠ ['.'])
    (hslash : '/' ∉ y) : strChars (pyName (String.mk y)) = y := by
  unfold pyName pathParts rawComps strChars
  have h1 : (String.mk y).data = y := rfl
  rw [h1, splitChars_no_sep '/' y hslash]
  have h2 : ¬ (String.mk y = "") := by
    intro e
    apply hnil
    have := congrArg String.data e
    simpa using this
  have h3 : ¬ (String.mk y = ".") := by
    intro e
    apply hdot
    have := congrArg String.data e
    simpa using this
  simp [h2, h3]

theorem map_clean_id (y : List Char) (h : ∀ c ∈ y, riskyChars.contains c = false) :
    y.map (fun c => if riskyChars.contains c then '_' else c) = y := by
  induction y with
  | nil => rfl
  | cons c rest ih =>
    have hc : riskyChars.contains c = false := h c (List.mem_cons_self c rest)
    have hr : ∀ x ∈ rest, riskyChars.contains x = false :=
      fun x hx => h x (List.mem_cons_of_mem c hx)
    simp only [List.map_cons]
    rw [if_neg (by rw [hc]; decide), ih hr]

theorem dropWhile_eq_self_of (p : Char → Bool) (l : List Char) (d : Char)
    (h : p (l.headD d) = false) : l.dropWhile p = l := by
  cases l with
  | nil => rfl
  | cons c rest =>
    have hc : p c = false := h
    rw [List.dropWhile_cons, if_neg (by simp [hc])]

theorem pyStrip_eq_self (y : List Char)
    (h1 : isDotSpace (y.headD 'x') = false)
    (h2 : isDotSpace (y.getLastD 'x') = false) : pyStrip y = y := by
  unfold pyStrip
  rw [dropWhile_eq_self_of isDotSpace y 'x' h1]
  have h3 : isDotSpace (y.reverse.headD 'x') = false := by
    rw [List.headD_eq_head?, List.head?_reverse, ← List.getLastD_eq_getLast?]
    exact h2
  rw [dropWhile_eq_self_of isDotSpace y.reverse 'x' h3, List.reverse_reverse]

theorem cleanedName_idem (fn : List Char) : cleanedName (cleanedName fn) = cleanedName fn := by
  have h1 : cleanedName fn ≠ [] := cleanedName_ne_nil fn
  have h2 : cleanedName fn ≠ ['.'] := cleanedName_ne_dot fn
  have h3 : '/' ∉ cleanedName fn := cleanedName_no_slash fn
  have h4 := cleanedName_no_risky fn
  have h5 := cleanedName_headD fn
  have h6 := cleanedName_getLastD fn
  conv_lhs => rw [cleanedName]
  rw [pyName_mk_eq (cleanedName fn) h1 h2 h3, map_clean_id (cleanedName fn) h4,
    pyStrip_eq_self (cleanedName fn) h5 h6, if_neg h1]

theorem sanitize_eq_cleaned (fn : List Char) (h : (cleanedName fn).length ≤ 255) :
    sanitize_filename fn = cleanedName fn := by
  simp only [sanitize_filename]
  rw [if_neg (Nat.not_lt.mpr h)]

theorem sanitize_trunc (fn : List Char) (h : 255 < (cleanedName fn).length) :
    sanitize_filename fn =
      pySlice (255 - ((pySuffixOfName (cleanedName fn)).length : Int))
        (pyStemOfName (cleanedName fn)) ++ pySuffixOfName (cleanedName fn) := by
  simp only [sanitize_filename]
  rw [if_pos h]
  rw [pyName_mk_eq (cleanedName fn) (cleanedName_ne_nil fn) (cleanedName_ne_dot fn)
    (cleanedName_no_slash fn)]

theorem pyStem_append_pySuffix (nm : List Char) :
    pyStemOfName nm ++ pySuffixOfName nm = nm := by
  unfold pyStemOfName pySuffixOfName
  cases h : rfindIdx '.' nm with
  | none => simp
  | some i =>
    dsimp only
    by_cases hc : 0 < i ∧ i + 1 < nm.length
    · rw [if_pos hc, if_pos hc]
      exact List.take_append_drop i nm
    · rw [if_neg hc, if_neg hc]
      simp

theorem pySuffix_nil_imp_stem (nm : List Char) (h : pySuffixOfName nm = []) :
    pyStemOfName nm = nm := by
  have hs := pyStem_append_pySuffix nm
  rw [h, List.append_nil] at hs
  exact hs

theorem mem_pySlice (m : Int) (l : List Char) (c : Char) (h : c ∈ pySlice m l) : c ∈ l := by
  unfold pySlice at h
  split at h <;> exact (List.take_subset _ _) h

/-- C8 (amended): `sanitize_filename` is idempotent on every input whose
cleaned name fits in 255 characters, i.e. whenever the truncation branch is
not taken.  (Truncation can produce a name with a leading dot or trailing
space, which a second pass strips again, so unconditional idempotence
fails; see the counterexample.) -/
theorem c8_sanitize_idempotent_no_truncation (fn : List Char)
    (h : (cleanedName fn).length ≤ 255) :
    sanitize_filename (sanitize_filename fn) = sanitize_filename fn := by
  rw [sanitize_eq_cleaned fn h]
  have h2 : (cleanedName (cleanedName fn)).length ≤ 255 := by
    rw [cleanedName_idem]
    exact h
  rw [sanitize_eq_cleaned (cleanedName fn) h2, cleanedName_idem]

set_option maxRecDepth 100000

/-- Counterexample for C8 as stated: the input `x.` followed by 300 `a`s
sanitizes to a 301-character name starting with a dot, and sanitizing that
output again strips the dot and truncates, giving a different name. -/
theorem c8_counterexample :
    sanitize_filename (sanitize_filename ('x' :: '.' :: List.replicate 300 'a')) ≠
      sanitize_filename ('x' :: '.' :: List.replicate 300 'a') := by decide

/-- Witness for C8: a short filename is a fixed point of double
sanitization. -/
theorem c8_witness :
    (cleanedName (strChars "photo 1.jpg")).length ≤ 255
    ∧ sanitize_filename (sanitize_filename (strChars "photo 1.jpg")) =
        sanitize_filename (strChars "photo 1.jpg") :=
  ⟨by decide, c8_sanitize_idempotent_no_truncation (strChars "photo 1.jpg") (by decide)⟩

/-- C7 (amended): `sanitize_filename` strips directory components, replaces
each unsafe character with an underscore, trims leading and trailing dots
and spaces, substitutes `unnamed` for an empty result, and returns a
non-empty name; when the cleaned name exceeds 255 characters the stem is
truncated and the suffix kept, so the result fits in 255 characters
provided the suffix itself does — the bound is measured in characters
(code points), not bytes, and a suffix longer than 255 characters survives
truncation whole. -/
theorem c7_sanitize_guarantees (fn : List Char) :
    sanitize_filename fn ≠ []
  ∧ (∀ c ∈ sanitize_filename fn, riskyChars.contains c = false)
  ∧ isDotSpace ((cleanedName fn).headD 'x') = false
  ∧ isDotSpace ((cleanedName fn).getLastD 'x') = false
  ∧ ((cleanedName fn).length ≤ 255 → sanitize_filename fn = cleanedName fn)
  ∧ (255 < (cleanedName fn).length →
      sanitize_filename fn =
        pySlice (255 - ((pySuffixOfName (cleanedName fn)).length : Int))
          (pyStemOfName (cleanedName fn)) ++ pySuffixOfName (cleanedName fn))
  ∧ ((pySuffixOfName (cleanedName fn)).length ≤ 255 → (sanitize_filename fn).length ≤ 255) := by
  refine ⟨?_, ?_, cleanedName_headD fn, cleanedName_getLastD fn,
    fun h => sanitize_eq_cleaned fn h, fun h => sanitize_trunc fn h, ?_⟩
  · by_cases h : 255 < (cleanedName fn).length
    · rw [sanitize_trunc fn h]
      by_cases hs : pySuffixOfName (cleanedName fn) = []
      · rw [hs, List.append_nil, pySuffix_nil_imp_stem _ hs]
        unfold pySlice
        rw [if_pos (by simp)]
        apply List.length_pos.mp
        rw [List.length_take]
        simp only [List.length_nil, Nat.cast_zero]
        omega
      · intro heq
        rcases List.append_eq_nil.mp heq with ⟨_, h2⟩
        exact hs h2
    · rw [sanitize_eq_cleaned fn (Nat.not_lt.mp h)]
      exact cleanedName_ne_nil fn
  · intro c hc
    by_cases h : 255 < (cleanedName fn).length
    · rw [sanitize_trunc fn h] at hc
      rcases List.mem_append.mp hc with hc | hc
      · have hstem := mem_pySlice _ _ c hc
        apply cleanedName_no_risky fn c
        rw [← pyStem_append_pySuffix (cleanedName fn)]
        exact List.mem_append_left _ hstem
      · apply cleanedName_no_risky fn c
        rw [← pyStem_append_pySuffix (cleanedName fn)]
        exact List.mem_append_right _ hc
    · rw [sanitize_eq_cleaned fn (Nat.not_lt.mp h)] at hc
      exact cleanedName_no_risky fn c hc
  · intro hsuf
    by_cases h : 255 < (cleanedName fn).length
    · rw [sanitize_trunc fn h, List.length_append]
      set sl := (pySuffixOfName (cleanedName fn)).length with hsl
      have hm : (0:Int) ≤ 255 - (sl : Int) := by omega
      unfold pySlice
      rw [if_pos hm]
      have htn : ((255 - (sl:Int)).toNat) = 255 - sl := by omega
      rw [htn]
      have hlen : (List.take (255 - sl) (pyStemOfName (cleanedName fn))).length ≤ 255 - sl := by
        rw [List.length_take]
        omega
      omega
    · rw [sanitize_eq_cleaned fn (Nat.not_lt.mp h)]
      exact Nat.not_lt.mp h

/-- Counterexample for C7 as stated: the input `x.` followed by 300 `a`s
yields a sanitized name of 301 characters, hence 301 UTF-8 bytes — more
than 255 — because the entire 301-character suffix is preserved and only
the stem is truncated. -/
theorem c7_counterexample :
    255 < (sanitize_filename ('x' :: '.' :: List.replicate 300 'a')).length
    ∧ 255 < utf8Len (sanitize_filename ('x' :: '.' :: List.replicate 300 'a')) := by decide

/-- Witness for C7: a name with a directory component, a space and an
unsafe character sanitizes to a short, non-empty, clean name. -/
theorem c7_witness :
    (pySuffixOfName (cleanedName (strChars "dir/my photo.jpg"))).length ≤ 255
    ∧ (sanitize_filename (strChars "dir/my photo.jpg")).length ≤ 255
    ∧ sanitize_filename (strChars "dir/my photo.jpg") ≠ [] :=
  ⟨by decide,
   (c7_sanitize_guarantees (strChars "dir/my photo.jpg")).2.2.2.2.2.2 (by decide),
   (c7_sanitize_guarantees (strChars "dir/my photo.jpg")).1⟩

/-! ## C1-C4: helper lemmas about the extraction loop -/

theorem processEntry_dir (cfg : ExtractConfig) (t : Nat) (st : ExtState) (idx : Nat)
    (e : ZipEntry) (h : isDirEntry e = true) :
    processEntry cfg t st idx e = (st, none) := by
  unfold processEntry
  rw [if_pos h]

theorem processEntry_escaping (cfg : ExtractConfig) (t : Nat) (st : ExtState) (idx : Nat)
    (e : ZipEntry) (hdir : isDirEntry e = false) (hbad : entrySafe cfg e = false) :
    processEntry cfg t st idx e = (st, some (.badPath e.filename)) := by
  unfold processEntry
  rw [if_neg (by simp [hdir]), if_neg (by simp [hbad])]

theorem processEntry_none_of_ok (cfg : ExtractConfig) (t : Nat) (st : ExtState) (idx : Nat)
    (e : ZipEntry) (h : isDirEntry e = true ∨ entrySafe cfg e = true) :
    (processEntry cfg t st idx e).2 = none := by
  rcases h with h | h
  · rw [processEntry_dir cfg t st idx e h]
  · unfold processEntry
    by_cases hd : isDirEntry e
    · rw [if_pos hd]
    · rw [if_neg hd, if_pos h]

theorem processEntry_progress (cfg : ExtractConfig) (t : Nat) (st : ExtState) (idx : Nat)
    (e : ZipEntry) (h : (processEntry cfg t st idx e).2 = none) :
    (processEntry cfg t st idx e).1.progress =
      st.progress ++ (if isDirEntry e then [] else [(idx, t)]) := by
  unfold processEntry at h ⊢
  by_cases hd : isDirEntry e
  · rw [if_pos hd] at h ⊢
    simp [hd]
  · rw [if_neg hd] at h ⊢
    rw [if_neg hd]
    by_cases hp : entrySafe cfg e
    · rw [if_pos hp]
      dsimp only
      congr 1
      split
      · split <;> rfl
      · rfl
    · rw [if_neg hp] at h
      exact absurd h (by simp)

theorem runEntries_none_of_safe (cfg : ExtractConfig) (t : Nat) (l : List ZipEntry)
    (h : ∀ x ∈ l, isDirEntry x = true ∨ entrySafe cfg x = true) :
    ∀ (st : ExtState) (idx : Nat), (runEntries cfg t st idx l).2 = none := by
  induction l with
  | nil => intro st idx; rfl
  | cons e rest ih =>
    intro st idx
    have he := h e (List.mem_cons_self e rest)
    have hr : ∀ x ∈ rest, isDirEntry x = true ∨ entrySafe cfg x = true :=
      fun x hx => h x (List.mem_cons_of_mem e hx)
    have h2 := processEntry_none_of_ok cfg t st idx e he
    simp only [runEntries]
    rcases hpe : processEntry cfg t st idx e with ⟨st1, o⟩
    rw [hpe] at h2
    cases o with
    | none => exact ih hr st1 (idx + 1)
    | some err => exact absurd h2 (by simp)

theorem runEntries_append (cfg : ExtractConfig) (t : Nat) (l1 l2 : List ZipEntry) :
    ∀ (st : ExtState) (idx : Nat),
      runEntries cfg t st idx (l1 ++ l2) =
        (match runEntries cfg t st idx l1 with
         | (st1, none) => runEntries cfg t st1 (idx + l1.length) l2
         | (st1, some err) => (st1, some err)) := by
  induction l1 with
  | nil =>
    intro st idx
    simp [runEntries]
  | cons e rest ih =>
    intro st idx
    rw [List.cons_append]
    simp only [runEntries]
    rcases hpe : processEntry cfg t st idx e with ⟨st1, o⟩
    cases o with
    | none =>
      dsimp only
      rw [ih st1 (idx + 1)]
      have harith : idx + 1 + rest.length = idx + (e :: rest).length := by
        simp only [List.length_cons]
        omega
      rw [harith]
    | some err => rfl

/-- Position- and total-annotated progress calls expected from one pass of
the loop over `l` starting at 1-based index `i` with denominator `t`. -/
def numberFrom (i : Nat) : List ZipEntry → List (Nat × ZipEntry)
  | [] => []
  | e :: rest => (i, e) :: numberFrom (i + 1) rest

/-- The progress trace the loop produces: one `(idx, t)` call per
non-directory entry, where `idx` is the entry's 1-based position among all
entries and `t` the total number of entries. -/
def progressTrace (t i : Nat) (l : List ZipEntry) : List (Nat × Nat) :=
  (numberFrom i l).filterMap (fun p => if isDirEntry p.2 then none else some (p.1, t))

theorem progressTrace_nil (t i : Nat) : progressTrace t i [] = [] := rfl

theorem progressTrace_cons (t i : Nat) (e : ZipEntry) (rest : List ZipEntry) :
    progressTrace t i (e :: rest) =
      (if isDirEntry e then [] else [(i, t)]) ++ progressTrace t (i + 1) rest := by
  simp only [progressTrace, numberFrom, List.filterMap_cons]
  by_cases hd : isDirEntry e
  · simp [hd]
  · simp [hd]

theorem runEntries_progress (cfg : ExtractConfig) (t : Nat) :
    ∀ (l : List ZipEntry) (st : ExtState) (idx : Nat),
      (runEntries cfg t st idx l).2 = none →
      (runEntries cfg t st idx l).1.progress = st.progress ++ progressTrace t idx l := by
  intro l
  induction l with
  | nil => intro st idx _; simp [runEntries, progressTrace_nil]
  | cons e rest ih =>
    intro st idx hnone
    simp only [runEntries] at hnone ⊢
    rcases hpe : processEntry cfg t st idx e with ⟨st1, o⟩
    cases o with
    | some err =>
      rw [hpe] at hnone
      exact absurd hnone (by simp)
    | none =>
      rw [hpe] at hnone
      dsimp only at hnone ⊢
      rw [ih st1 (idx + 1) hnone]
      have hp := processEntry_progress cfg t st idx e (by rw [hpe])
      rw [hpe] at hp
      dsimp only at hp
      rw [hp, progressTrace_cons]
      by_cases hd : isDirEntry e
      · simp [hd]
      · simp [hd, List.append_assoc]

theorem progressTrace_facts (t : Nat) :
    ∀ (l : List ZipEntry) (i : Nat), ∀ x ∈ progressTrace t i l, i ≤ x.1 ∧ x.2 = t := by
  intro l
  induction l with
  | nil => intro i x hx; simp [progressTrace_nil] at hx
  | cons e rest ih =>
    intro i x hx
    rw [progressTrace_cons] at hx
    rcases List.mem_append.mp hx with hx | hx
    · by_cases hd : isDirEntry e
      · rw [if_pos hd] at hx
        simp at hx
      · rw [if_neg hd] at hx
        have : x = (i, t) := by simpa using hx
        subst this
        exact ⟨le_rfl, rfl⟩
    · have := ih (i + 1) x hx
      exact ⟨by omega, this.2⟩

theorem progressTrace_chain (t : Nat) :
    ∀ (l : List ZipEntry) (i : Nat),
      List.Chain' (fun a b => a.1 ≤ b.1) (progressTrace t i l) := by
  intro l
  induction l with
  | nil => intro i; simp [progressTrace_nil]
  | cons e rest ih =>
    intro i
    rw [progressTrace_cons]
    by_cases hd : isDirEntry e
    · rw [if_pos hd]
      simpa using ih (i + 1)
    · rw [if_neg hd]
      rw [List.singleton_append, List.chain'_cons']
      refine ⟨?_, ih (i + 1)⟩
      intro b hb
      have hbmem : b ∈ progressTrace t (i + 1) rest := by
        cases hh : progressTrace t (i + 1) rest with
        | nil => simp [hh] at hb
        | cons y ys =>
          rw [hh] at hb
          have hy : y = b := by simpa using hb
          rw [← hy]
          exact List.mem_cons_self y ys
      obtain ⟨h1, _⟩ := progressTrace_facts t rest (i + 1) b hbmem
      show i ≤ b.1
      omega

theorem progressTrace_length (t : Nat) :
    ∀ (l : List ZipEntry) (i : Nat),
      (progressTrace t i l).length = (l.filter (fun e => !isDirEntry e)).length := by
  intro l
  induction l with
  | nil => intro i; rfl
  | cons e rest ih =>
    intro i
    rw [progressTrace_cons, List.length_append, List.filter_cons]
    by_cases hd : isDirEntry e
    · rw [if_pos hd, if_neg (by simp [hd])]
      simpa using ih (i + 1)
    · rw [if_neg hd, if_pos (by simp [hd])]
      simp only [List.length_cons, List.length_nil]
      rw [ih (i + 1)]
      omega

theorem progressTrace_last_all_files (t : Nat) :
    ∀ (l : List ZipEntry) (i : Nat), l ≠ [] → (∀ e ∈ l, isDirEntry e = false) →
      (progressTrace t i l).getLast? = some (i + l.length - 1, t) := by
  intro l
  induction l with
  | nil => intro i h _; exact absurd rfl h
  | cons e rest ih =>
    intro i _ hall
    have hde : isDirEntry e = false := hall e (List.mem_cons_self e rest)
    rw [progressTrace_cons, if_neg (by simp [hde]), List.singleton_append]
    cases rest with
    | nil => simp [progressTrace_nil]
    | cons r rest2 =>
      have hr : ∀ x ∈ r :: rest2, isDirEntry x = false :=
        fun x hx => hall x (List.mem_cons_of_mem e hx)
      have hrec := ih (i + 1) (List.cons_ne_nil r rest2) hr
      cases hh : progressTrace t (i + 1) (r :: rest2) with
      | nil =>
        have hlen := progressTrace_length t (r :: rest2) (i + 1)
        rw [hh] at hlen
        rw [List.filter_eq_self.mpr (by intro x hx; simp [hr x hx])] at hlen
        simp at hlen
      | cons y ys =>
        rw [hh] at hrec
        rw [List.getLast?_cons_cons, hrec]
        congr 2
        simp only [List.length_cons]
        omega

/-! ## Filesystem bookkeeping lemmas -/

theorem find?_key_filter (l : List (List String × List Nat)) (p q : List String)
    (h : q ≠ p) :
    (l.filter (fun r => decide (r.1 ≠ p))).find? (fun r => r.1 = q) =
      l.find? (fun r => r.1 = q) := by
  induction l with
  | nil => rfl
  | cons x xs ih =>
    by_cases hx : x.1 = q
    · rw [List.filter_cons, if_pos (by simp [hx, h]),
        List.find?_cons_of_pos _ (by simp [hx]), List.find?_cons_of_pos _ (by simp [hx])]
    · by_cases hp : x.1 = p
      · rw [List.filter_cons, if_neg (by simp [hp]), ih,
          List.find?_cons_of_neg _ (by simp [hx])]
      · rw [List.filter_cons, if_pos (by simp [hp]),
          List.find?_cons_of_neg _ (by simp [hx]), List.find?_cons_of_neg _ (by simp [hx])]
        exact ih

theorem find?_key_filter_self (l : List (List String × List Nat)) (p : List String) :
    (l.filter (fun r => decide (r.1 ≠ p))).find? (fun r => r.1 = p) = none := by
  induction l with
  | nil => rfl
  | cons x xs ih =>
    by_cases hp : x.1 = p
    · rw [List.filter_cons, if_neg (by simp [hp])]
      exact ih
    · rw [List.filter_cons, if_pos (by simp [hp]),
        List.find?_cons_of_neg _ (by simp [hp])]
      exact ih

theorem fileGet_write_self (fs : DiskState) (p : List String) (c : List Nat) :
    fileGet (fileWrite fs p c) p = some c := by
  unfold fileGet fileWrite mkdirParents
  dsimp only
  rw [List.find?_cons_of_pos _ (by simp)]
  rfl

theorem fileGet_write_other (fs : DiskState) (p q : List String) (c : List Nat)
    (h : q ≠ p) : fileGet (fileWrite fs p c) q = fileGet fs q := by
  unfold fileGet fileWrite mkdirParents
  dsimp only
  rw [List.find?_cons_of_neg _ (by simp [Ne.symm h]), find?_key_filter fs.files p q h]

theorem fileGet_erase_self (fs : DiskState) (p : List String) :
    fileGet (fileErase fs p) p = none := by
  unfold fileGet fileErase
  dsimp only
  rw [find?_key_filter_self]
  rfl

theorem fileGet_erase_none (fs : DiskState) (p q : List String)
    (h : fileGet fs q = none) : fileGet (fileErase fs p) q = none := by
  by_cases hqp : q = p
  · subst hqp
    exact fileGet_erase_self fs q
  · unfold fileGet at h
    unfold fileGet fileErase
    dsimp only at h ⊢
    rw [find?_key_filter fs.files p q hqp]
    exact h

theorem processEntry_absent_preserved (cfg : ExtractConfig) (t : Nat) (st : ExtState)
    (idx : Nat) (e : ZipEntry) (p : List String)
    (habs : fileGet st.fs p = none)
    (h : isDirEntry e = true ∨ entryTargetPath cfg e ≠ p) :
    fileGet (processEntry cfg t st idx e).1.fs p = none := by
  unfold processEntry
  by_cases hd : isDirEntry e
  · rw [if_pos hd]
    exact habs
  · have hne : entryTargetPath cfg e ≠ p := by
      rcases h with h | h
      · exact absurd h (by simp [hd])
      · exact h
    rw [if_neg hd]
    by_cases hp : entrySafe cfg e
    · rw [if_pos hp]
      dsimp only
      have h1 : fileGet (fileWrite st.fs (entryTargetPath cfg e) e.content) p = none := by
        rw [fileGet_write_other st.fs (entryTargetPath cfg e) p e.content
          (fun hh => hne hh.symm)]
        exact habs
      split
      · split
        · exact h1
        · dsimp only
          split
          · exact fileGet_erase_none _ _ _ h1
          · exact h1
      · exact h1
    · rw [if_neg hp]
      exact habs

/-! ## Category histogram lemmas -/

theorem find?_bump_map_self (d : List (String × Nat)) (k : String) :
    (d.map (fun e => if e.1 = k then (k, e.2 + 1) else e)).find? (fun e => e.1 = k) =
      (d.find? (fun e => e.1 = k)).map (fun e => (k, e.2 + 1)) := by
  induction d with
  | nil => rfl
  | cons x xs ih =>
    rw [List.map_cons]
    by_cases hx : x.1 = k
    · rw [if_pos hx, List.find?_cons_of_pos _ (by simp), List.find?_cons_of_pos _ (by simp [hx])]
      simp
    · rw [if_neg hx, List.find?_cons_of_neg _ (by simp [hx]),
        List.find?_cons_of_neg _ (by simp [hx])]
      exact ih

theorem find?_bump_map_other (d : List (String × Nat)) (k c : String) (hck : c ≠ k) :
    (d.map (fun e => if e.1 = k then (k, e.2 + 1) else e)).find? (fun e => e.1 = c) =
      d.find? (fun e => e.1 = c) := by
  induction d with
  | nil => rfl
  | cons x xs ih =>
    rw [List.map_cons]
    by_cases hxk : x.1 = k
    · rw [if_pos hxk, List.find?_cons_of_neg _ (by simp [Ne.symm hck]),
        List.find?_cons_of_neg _ (by rw [hxk]; simp [Ne.symm hck])]
      exact ih
    · rw [if_neg hxk]
      by_cases hxc : x.1 = c
      · rw [List.find?_cons_of_pos _ (by simp [hxc]), List.find?_cons_of_pos _ (by simp [hxc])]
      · rw [List.find?_cons_of_neg _ (by simp [hxc]), List.find?_cons_of_neg _ (by simp [hxc])]
        exact ih

theorem catCount_bump_self (d : List (String × Nat)) (k : String) :
    catCount (bumpCat d k) k = catCount d k + 1 := by
  unfold bumpCat catCount
  by_cases h : d.any (fun e => e.1 = k) = true
  · rw [if_pos h, find?_bump_map_self]
    cases hf : d.find? (fun e => e.1 = k) with
    | none =>
      have hsome : (d.find? (fun e => e.1 = k)).isSome := by
        rw [List.find?_isSome]
        simpa using h
      rw [hf] at hsome
      simp at hsome
    | some x => simp
  · rw [if_neg h]
    have hnone : d.find? (fun e => e.1 = k) = none := by
      rw [List.find?_eq_none]
      intro x hx hxk
      apply h
      rw [List.any_eq_true]
      exact ⟨x, hx, hxk⟩
    rw [List.find?_append, hnone]
    simp [hnone]

theorem catCount_bump_other (d : List (String × Nat)) (k c : String) (hck : c ≠ k) :
    catCount (bumpCat d k) c = catCount d c := by
  unfold bumpCat catCount
  by_cases h : d.any (fun e => e.1 = k) = true
  · rw [if_pos h, find?_bump_map_other d k c hck]
  · rw [if_neg h, List.find?_append]
    cases hf : d.find? (fun e => e.1 = c) with
    | none => simp [Ne.symm hck]
    | some x => simp

theorem processEntry_rejected (cfg : ExtractConfig) (t : Nat) (st : ExtState) (idx : Nat)
    (e : ZipEntry)
    (hdir : isDirEntry e = false)
    (hmedia : isMediaFile cfg.sourceType e.filename = true)
    (hval : cfg.validateMedia = true)
    (hsafe : entrySafe cfg e = true)
    (hrej : (cfg.validator (entryTargetPath cfg e)).1 = false) :
    processEntry cfg t st idx e =
      ({ fs := fileErase (fileWrite st.fs (entryTargetPath cfg e) e.content)
            (entryTargetPath cfg e),
         warnings := st.warnings ++
           [warnMsg e.filename (cfg.validator (entryTargetPath cfg e)).2.2.2],
         cats := bumpCat st.cats (displayCategory (cfg.validator (entryTargetPath cfg e)).2.2.1),
         progress := st.progress ++ [(idx, t)] }, none) := by
  unfold processEntry
  rw [if_neg (by simp [hdir]), if_pos hsafe]
  dsimp only
  rw [if_pos (show isMediaFile cfg.sourceType e.filename = true ∧ cfg.validateMedia = true
    from ⟨hmedia, hval⟩)]
  rw [if_neg (by simp [hrej])]
  rw [if_pos (by rw [fileGet_write_self]; rfl)]

/-! ## Concrete configurations and archives for witnesses and
counterexamples -/

/-- A journiv-format configuration whose validator accepts everything. -/
def cfgJ : ExtractConfig :=
  { extractTo := ["tmp", "x"], mediaDest := none, maxSizeMb := 10, validateMedia := true,
    sourceType := none, validator := fun _ => (true, "image/jpeg", "none", "File is valid") }

/-- A zero-copy configuration whose validator rejects everything with
category `format`. -/
def cfgRej : ExtractConfig :=
  { extractTo := ["tmp", "x"], mediaDest := some ["dst"], maxSizeMb := 10, validateMedia := true,
    sourceType := none,
    validator := fun _ =>
      (false, "application/octet-stream", "format",
        "Mime type application/octet-stream not allowed") }

/-- An archive containing an entry whose declared path has an in-tree
parent-directory segment (`a/../b.txt` resolves inside the root). -/
def zipDotDotInside : ZipArchive :=
  ⟨none, [⟨"data.json", 2, [1, 2]⟩, ⟨"a/../b.txt", 1, [7]⟩]⟩

/-- An archive with one directory entry and one file entry. -/
def zipWithDir : ZipArchive := ⟨none, [⟨"d/", 0, []⟩, ⟨"data.json", 2, [1, 2]⟩]⟩

/-- An archive with a single escaping entry. -/
def zipEvil : ZipArchive := ⟨none, [⟨"../evil.txt", 1, [9]⟩]⟩

/-- An archive whose declared total size exceeds 10 MiB. -/
def zipBig : ZipArchive := ⟨none, [⟨"data.json", 20971521, [1]⟩]⟩

/-- A rejected media entry. -/
def eMediaRej : ZipEntry := ⟨"media/e1/a.jpg", 3, [1, 2, 3]⟩

/-- An empty loop state over an empty filesystem. -/
def st0W : ExtState := ⟨⟨[], []⟩, [], [], []⟩

/-! ## C1: path-safety of stream_extract -/

/-- C1 (amended): for every entry whose resolved target path escapes its
designated destination root, `stream_extract` aborts with the
`ZIP contains unsafe path` error naming that entry, and the filesystem at
that point is exactly the filesystem after the preceding entries — no byte
of the offending entry has been written.  The containment check is
performed per entry, inside the loop, immediately before the write (there
is no archive-wide scan in `stream_extract` at all).  A declared path
containing a parent-directory segment that still resolves inside the root
(for example `a/../b.txt`) is not rejected; see the counterexample. -/
theorem c1_escaping_entry_aborts (cfg : ExtractConfig) (A : ZipArchive) (fs0 : DiskState)
    (pre post : List ZipEntry) (e : ZipEntry)
    (hc : A.corruptMember = none)
    (hs : (A.entries.map (fun x => x.size)).sum ≤ cfg.maxSizeMb * 1024 * 1024)
    (hsplit : A.entries = pre ++ e :: post)
    (hpre : ∀ x ∈ pre, isDirEntry x = true ∨ entrySafe cfg x = true)
    (hdir : isDirEntry e = false)
    (hbad : entrySafe cfg e = false) :
    (stream_extract cfg A fs0).result = .error (.badPath e.filename)
    ∧ (stream_extract cfg A fs0).fs =
        (runEntries cfg A.entries.length (initState cfg fs0) 1 pre).1.fs
    ∧ (stream_extract cfg A fs0).progress =
        (runEntries cfg A.entries.length (initState cfg fs0) 1 pre).1.progress := by
  unfold stream_extract
  rw [hc]
  dsimp only
  rw [if_neg (Nat.not_lt.mpr hs)]
  rw [hsplit]
  rw [runEntries_append cfg (pre ++ e :: post).length pre (e :: post) (initState cfg fs0) 1]
  have h2 := runEntries_none_of_safe cfg (pre ++ e :: post).length pre hpre (initState cfg fs0) 1
  rcases hru : runEntries cfg (pre ++ e :: post).length (initState cfg fs0) 1 pre with ⟨st1, o⟩
  rw [hru] at h2
  cases o with
  | some err => exact absurd h2 (by simp)
  | none =>
    dsimp only
    simp only [runEntries]
    simp only [processEntry_escaping cfg (pre ++ e :: post).length st1 (1 + pre.length) e
      hdir hbad]
    simp

/-- Counterexample for C1 as stated: the entry `a/../b.txt` contains a
parent-directory segment, yet extraction succeeds and the entry's bytes
are written (to `tmp/x/b.txt`): `stream_extract` checks the resolved path,
not the presence of `..`. -/
theorem c1_counterexample :
    strHasDotDot "a/../b.txt" = true
    ∧ resultIsOk (stream_extract cfgJ zipDotDotInside ⟨[], []⟩).result = true
    ∧ fileGet (stream_extract cfgJ zipDotDotInside ⟨[], []⟩).fs ["tmp", "x", "b.txt"] =
        some [7] := by decide

/-- Witness for C1: a single escaping entry aborts the run with the
unsafe-path error and leaves the filesystem in the pre-entry state. -/
theorem c1_witness :
    (stream_extract cfgJ zipEvil ⟨[], []⟩).result = .error (.badPath "../evil.txt")
    ∧ (stream_extract cfgJ zipEvil ⟨[], []⟩).fs =
        (runEntries cfgJ zipEvil.entries.length (initState cfgJ ⟨[], []⟩) 1 []).1.fs :=
  ⟨(c1_escaping_entry_aborts cfgJ zipEvil ⟨[], []⟩ [] [] ⟨"../evil.txt", 1, [9]⟩ rfl
      (by decide) rfl (by simp) (by decide) (by decide)).1,
   (c1_escaping_entry_aborts cfgJ zipEvil ⟨[], []⟩ [] [] ⟨"../evil.txt", 1, [9]⟩ rfl
      (by decide) rfl (by simp) (by decide) (by decide)).2.1⟩

/-! ## C2: the progress trace -/

theorem stream_extract_progress_eq (cfg : ExtractConfig) (A : ZipArchive) (fs0 : DiskState)
    (hc : A.corruptMember = none)
    (hs : (A.entries.map (fun x => x.size)).sum ≤ cfg.maxSizeMb * 1024 * 1024) :
    (stream_extract cfg A fs0).progress =
      (runEntries cfg A.entries.length (initState cfg fs0) 1 A.entries).1.progress := by
  unfold stream_extract
  rw [hc]
  dsimp only
  rw [if_neg (Nat.not_lt.mpr hs)]
  rcases hru : runEntries cfg A.entries.length (initState cfg fs0) 1 A.entries with ⟨st, o⟩
  cases o with
  | some err => rfl
  | none =>
    dsimp only
    split
    · rfl
    · split <;> rfl

/-- C2 (amended): when the integrity and size checks pass and no entry
escapes its root, the progress calls of `stream_extract` are exactly one
`(idx, T)` per non-directory entry — `idx` the entry's 1-based position
among all entries and `T` the total number of entries, directories
included.  Hence the processed component is non-decreasing, there is
exactly one call per non-directory entry, and when the archive has no
directory entries the final call is `(N, N)` with `N` the number of
non-directory entries.  When directory entries are present the final call
is not `(N, N)` for `N` the non-directory count; see the counterexample. -/
theorem c2_progress_characterization (cfg : ExtractConfig) (A : ZipArchive) (fs0 : DiskState)
    (hc : A.corruptMember = none)
    (hs : (A.entries.map (fun x => x.size)).sum ≤ cfg.maxSizeMb * 1024 * 1024)
    (hsafe : ∀ x ∈ A.entries, isDirEntry x = true ∨ entrySafe cfg x = true) :
    (stream_extract cfg A fs0).progress = progressTrace A.entries.length 1 A.entries
    ∧ List.Chain' (fun a b => a.1 ≤ b.1) (stream_extract cfg A fs0).progress
    ∧ (stream_extract cfg A fs0).progress.length =
        (A.entries.filter (fun e => !isDirEntry e)).length
    ∧ (A.entries ≠ [] → (∀ e ∈ A.entries, isDirEntry e = false) →
        (stream_extract cfg A fs0).progress.getLast? =
          some (A.entries.length, A.entries.length)) := by
  have hmain : (stream_extract cfg A fs0).progress =
      progressTrace A.entries.length 1 A.entries := by
    rw [stream_extract_progress_eq cfg A fs0 hc hs]
    rw [runEntries_progress cfg A.entries.length A.entries (initState cfg fs0) 1
      (runEntries_none_of_safe cfg A.entries.length A.entries hsafe (initState cfg fs0) 1)]
    simp [initState]
  refine ⟨hmain, ?_, ?_, ?_⟩
  · rw [hmain]
    exact progressTrace_chain _ _ _
  · rw [hmain]
    exact progressTrace_length _ _ _
  · intro hne hall
    rw [hmain, progressTrace_last_all_files A.entries.length A.entries 1 hne hall]
    have h1 : 1 + A.entries.length - 1 = A.entries.length := by omega
    rw [h1]

/-- Counterexample for C2 as stated: with one directory entry and one file
entry the trace is `[(2, 2)]` — the denominator counts the directory entry
and the single call's processed value is 2, so the final element is not
`(N, N) = (1, 1)` for `N` the non-directory count. -/
theorem c2_counterexample :
    (zipWithDir.entries.filter (fun e => !isDirEntry e)).length = 1
    ∧ (stream_extract cfgJ zipWithDir ⟨[], []⟩).progress = [(2, 2)]
    ∧ (stream_extract cfgJ zipWithDir ⟨[], []⟩).progress.getLast? ≠ some (1, 1) := by decide

/-- Witness for C2: a concrete two-file archive realizes the
characterized trace. -/
theorem c2_witness :
    (stream_extract cfgJ zipDotDotInside ⟨[], []⟩).progress =
      progressTrace zipDotDotInside.entries.length 1 zipDotDotInside.entries :=
  (c2_progress_characterization cfgJ zipDotDotInside ⟨[], []⟩ rfl (by decide) (by decide)).1

/-! ## C3: rejected media bookkeeping -/

/-- C3: when the validator rejects a media entry during `stream_extract`
with media validation enabled, the loop appends exactly one warning
message, increments exactly the rejection's display-category count by one
(all other categories unchanged), and deletes the just-written file, whose
path is absent immediately afterwards; and the loop preserves absence of a
path through the remaining entries provided no later entry writes to that
same resolved target.  Hence the rejected file is absent from the
destination when `stream_extract` returns. -/
theorem c3_rejected_media_bookkeeping :
    (∀ (cfg : ExtractConfig) (t : Nat) (st : ExtState) (idx : Nat) (e : ZipEntry),
      isDirEntry e = false →
      isMediaFile cfg.sourceType e.filename = true →
      cfg.validateMedia = true →
      entrySafe cfg e = true →
      (cfg.validator (entryTargetPath cfg e)).1 = false →
      (processEntry cfg t st idx e).2 = none
      ∧ (processEntry cfg t st idx e).1.warnings =
          st.warnings ++ [warnMsg e.filename (cfg.validator (entryTargetPath cfg e)).2.2.2]
      ∧ catCount (processEntry cfg t st idx e).1.cats
            (displayCategory (cfg.validator (entryTargetPath cfg e)).2.2.1) =
          catCount st.cats (displayCategory (cfg.validator (entryTargetPath cfg e)).2.2.1) + 1
      ∧ (∀ k, k ≠ displayCategory (cfg.validator (entryTargetPath cfg e)).2.2.1 →
          catCount (processEntry cfg t st idx e).1.cats k = catCount st.cats k)
      ∧ fileGet (processEntry cfg t st idx e).1.fs (entryTargetPath cfg e) = none)
  ∧ (∀ (cfg : ExtractConfig) (t : Nat) (st : ExtState) (idx : Nat) (l : List ZipEntry)
        (p : List String),
      fileGet st.fs p = none →
      (∀ x ∈ l, isDirEntry x = true ∨ entryTargetPath cfg x ≠ p) →
      fileGet (runEntries cfg t st idx l).1.fs p = none) := by
  constructor
  · intro cfg t st idx e hdir hmedia hval hsafe hrej
    rw [processEntry_rejected cfg t st idx e hdir hmedia hval hsafe hrej]
    exact ⟨rfl, rfl, catCount_bump_self _ _, fun k hk => catCount_bump_other _ _ _ hk,
      fileGet_erase_self _ _⟩
  · intro cfg t st idx l p
    induction l generalizing st idx with
    | nil => intro habs _; exact habs
    | cons e rest ih =>
      intro habs hl
      simp only [runEntries]
      rcases hpe : processEntry cfg t st idx e with ⟨st1, o⟩
      have habs1 : fileGet st1.fs p = none := by
        have hstep := processEntry_absent_preserved cfg t st idx e p habs
          (hl e (List.mem_cons_self e rest))
        rw [hpe] at hstep
        exact hstep
      have hrest : ∀ x ∈ rest, isDirEntry x = true ∨ entryTargetPath cfg x ≠ p :=
        fun x hx => hl x (List.mem_cons_of_mem e hx)
      cases o with
      | none => exact ih st1 (idx + 1) habs1 hrest
      | some err => exact habs1

/-- Witness for C3: a concrete rejected media entry under the zero-copy
destination is deleted and leaves no later trace. -/
theorem c3_witness :
    ((processEntry cfgRej 2 st0W 2 eMediaRej).2 = none
     ∧ fileGet (processEntry cfgRej 2 st0W 2 eMediaRej).1.fs (entryTargetPath cfgRej eMediaRej) =
         none)
    ∧ fileGet (runEntries cfgRej 2 st0W 1 [eMediaRej]).1.fs ["tmp", "x", "other.txt"] = none :=
  ⟨⟨(c3_rejected_media_bookkeeping.1 cfgRej 2 st0W 2 eMediaRej (by decide) (by decide) rfl
      (by decide) rfl).1,
    (c3_rejected_media_bookkeeping.1 cfgRej 2 st0W 2 eMediaRej (by decide) (by decide) rfl
      (by decide) rfl).2.2.2.2⟩,
   c3_rejected_media_bookkeeping.2 cfgRej 2 st0W 1 [eMediaRej] ["tmp", "x", "other.txt"] rfl
     (by decide)⟩

/-! ## C4: the size ceiling aborts before any write -/

/-- C4: when the integrity check passes and the total declared uncompressed
size exceeds `max_size_mb * 1024 * 1024` bytes, `stream_extract` raises the
too-large error with the filesystem exactly as it was — zero bytes (and
zero directories) written under either destination root, and no progress
reported.  The size check precedes even the creation of the staging
directory. -/
theorem c4_too_large_aborts_before_write (cfg : ExtractConfig) (A : ZipArchive)
    (fs0 : DiskState)
    (hc : A.corruptMember = none)
    (hs : cfg.maxSizeMb * 1024 * 1024 < (A.entries.map (fun x => x.size)).sum) :
    stream_extract cfg A fs0 =
      { result := .error (.tooLarge ((A.entries.map (fun x => x.size)).sum) cfg.maxSizeMb),
        fs := fs0, progress := [] } := by
  unfold stream_extract
  rw [hc]
  dsimp only
  rw [if_pos hs]

/-- Witness for C4: a concrete archive declaring one byte over 10 MiB is
rejected with the filesystem untouched. -/
theorem c4_witness :
    stream_extract cfgJ zipBig ⟨[], []⟩ =
      { result := .error (.tooLarge 20971521 10), fs := ⟨[], []⟩, progress := [] } :=
  c4_too_large_aborts_before_write cfgJ zipBig ⟨[], []⟩ rfl (by decide)

end Journiv

